import Mathlib

set_option maxHeartbeats 1000000

/-!
Verification development for the tabstijl table renderer (src/main.cpp).

The C++ core is shallowly embedded:
* output is modelled as the list of chunks written to the output stream,
  one list element per `<<` operand (so `endl` is a `"\n"` chunk and the
  C string `"\0"` is the empty chunk);
* `std::string` is Lean `String`, `std::vector` is `List`,
  `size_t`/`int` arithmetic is `Nat`, except inside `get_tab_border`
  where `temp_col_width`/`max_col_width` are `int` variables mixed with
  `size_t` operands: there we use `Int`, which agrees with the
  two's-complement value the C++ computes for all magnitudes below 2^31;
* the character-at-a-time `getchar` loop is a fold of a step function
  over the input character list;
* the single fallible spot of the core, `cmdout_tab_data[0] = ...` on a
  possibly empty vector, is modelled with `Option`.
-/

/-- ANSI reset escape, the `DEFAULT` macro (`"\e[0m"`) of the source. -/
def DEFAULT : String := "\x1b[0m"

/-- ANSI red, the `RED` macro (`"\e[31m"`) of the source. -/
def RED : String := "\x1b[31m"

/-- The `ALIGN_LEFT` macro. -/
def ALIGN_LEFT : String := "left"

/-- The `ALIGN_CENTER` macro. -/
def ALIGN_CENTER : String := "center"

/-- The `ALIGN_RIGHT` macro. -/
def ALIGN_RIGHT : String := "right"

/-- One border line style: the four glyph fields of the C++ structs
`border_top` / `border_separator` / `border_bottom`. -/
structure BLine where
  left_char_unicode : String
  mid_char_unicode : String
  right_char_unicode : String
  fill_char_unicode : String
  deriving DecidableEq

/-- The C++ `tab_border` struct. -/
structure TabBorder where
  top : BLine
  separator : BLine
  bottom : BLine
  vertical_line : String
  deriving DecidableEq

/-- The configuration state of `main` after flag parsing: the mutable
locals of `main` that the core reads (the CLI layer that fills them is
out of scope; the core receives them as plain values). -/
structure Config where
  headerless : Bool
  exclude_first_line : Bool
  use_border : Bool
  use_separator : Bool
  table_color : String
  header_text_color : String
  body_text_color : String
  header_bg_color : String
  body_bg_color : String
  header_text_style : String
  body_text_style : String
  header_text_align : String
  body_text_align : String
  usrinput_header_data : List String
  col_separator : Char
  border : TabBorder
  col_padding : Nat
  deriving DecidableEq

/-- The default single-line border style (`tab_border_style` initializer). -/
def singleBorder : TabBorder :=
  ⟨⟨"┌", "┬", "┐", "─"⟩,
   ⟨"├", "┼", "┤", "─"⟩,
   ⟨"└", "┴", "┘", "─"⟩,
   "│"⟩

/-- The configuration produced by running `main` with no options:
the initial values of the locals of `main`. -/
def defaultCfg : Config :=
  ⟨false, false, true, true, "", "", "", "", "", "", "",
   ALIGN_LEFT, ALIGN_LEFT, [], ' ', singleBorder, 2⟩

/-- `std::string(n, ' ')`: a run of `n` spaces. -/
def spacesStr (n : Nat) : String :=
  String.mk (List.replicate n ' ')

/-- `cout << setw(w) << left << s`: pad `s` on the right with spaces to
width `w` (no-op when `s` is at least `w` long). -/
def setwLeft (s : String) (w : Nat) : String :=
  s ++ spacesStr (w - s.length)

/-- The `align_text` function of the source (lines 264-305): aligns a
string inside a column of the given width, returning the pair
`(tab_col_width, aligned string)`. -/
def align_text (string_to_align : String) (w : Nat) (text_alignment : String) :
    Nat × String :=
  let string_length := string_to_align.length
  if text_alignment = ALIGN_RIGHT then
    let col_padding := if w > string_length then w - string_length else 0
    (w, spacesStr col_padding ++ string_to_align)
  else if text_alignment = ALIGN_CENTER then
    let col_total_padding := if w > string_length then w - string_length else 0
    let col_left_padding := col_total_padding / 2
    let col_right_padding := col_total_padding - col_left_padding
    (w, spacesStr col_left_padding ++ string_to_align ++ spacesStr col_right_padding)
  else
    (w, string_to_align ++ spacesStr (if w > string_length then w - string_length else 0))

/-- The `is_wspace` function of the source (lines 232-247): a character
counts as a separator if it equals the configured delimiter or is a
newline, when the delimiter is one of newline/space/tab; otherwise
(the `wspace` setting stores `'\0'`) fall back to C `isspace`. -/
def cpp_isspace (c : Char) : Bool :=
  decide (c = ' ' ∨ c = '\t' ∨ c = '\n' ∨ c = '\x0B' ∨ c = '\x0C' ∨ c = '\x0D')

/-- See `cpp_isspace`; this is `is_wspace` from the source. -/
def is_wspace (current_char : Char) (col_separator : Char) : Bool :=
  if col_separator = '\n' ∨ col_separator = ' ' ∨ col_separator = '\t' then
    decide (current_char = col_separator ∨ current_char = '\n')
  else cpp_isspace current_char

/-- The mutable parsing state of the stdin loop of `main`
(lines 1059-1112): the token character queue, the current row, the
collected table, and the `first_line` flag. -/
structure PState where
  queue : List Char
  row : List String
  tab : List (List String)
  firstLine : Bool
  deriving DecidableEq

/-- One iteration of the stdin parsing loop (lines 1073-1112) for one
input character. -/
def pstep (sep : Char) (exclude : Bool) (s : PState) (c : Char) : PState :=
  if is_wspace c sep = true then
    let row1 :=
      if s.queue ≠ [] then
        (if String.mk s.queue ≠ "" ∧ (s.firstLine = false ∨ exclude = false)
         then s.row ++ [String.mk s.queue] else s.row)
      else s.row
    if c = '\n' then
      if s.firstLine = true ∧ exclude = true then ⟨[], row1, s.tab, false⟩
      else if row1 ≠ [] then ⟨[], [], s.tab ++ [row1], s.firstLine⟩
      else ⟨[], row1, s.tab, s.firstLine⟩
    else ⟨[], row1, s.tab, s.firstLine⟩
  else ⟨s.queue ++ [c], s.row, s.tab, s.firstLine⟩

/-- The flush after EOF (lines 1119-1135): any buffered characters
become a final token (note: with no header-exclusion check), and a
non-empty current row becomes a final table row. -/
def pfinish (s : PState) : List (List String) :=
  let row1 :=
    if s.queue ≠ [] then
      (if String.mk s.queue ≠ "" then s.row ++ [String.mk s.queue] else s.row)
    else s.row
  if row1 ≠ [] then s.tab ++ [row1] else s.tab

/-- The whole stdin tokenizing/collecting phase: `cmdout_tab_data` as a
function of the input character stream, the separator and the
header-exclusion flag. -/
def collect (input : List Char) (sep : Char) (exclude : Bool) :
    List (List String) :=
  pfinish (input.foldl (pstep sep exclude) ⟨[], [], [], true⟩)

/-- Draining the token queue into the current row: the queue contents
become one more token when the queue is non-empty. -/
def flushTok (q : List Char) (row : List String) : List String :=
  if q = [] then row else row ++ [String.mk q]

/-- Lines 1142-1147: if an explicit header list was supplied and
header exclusion is off, row 0 of the table is overwritten. On an
empty table the C++ `cmdout_tab_data[0]` is an out-of-bounds vector
access; that failure is `none`. -/
def set_header (cfg : Config) (table : List (List String)) :
    Option (List (List String)) :=
  if cfg.usrinput_header_data ≠ [] ∧ cfg.exclude_first_line = false then
    match table with
    | [] => none
    | _ :: rs => some (cfg.usrinput_header_data :: rs)
  else some table

/-- `max_col_count` (line 1150): the maximum row length of the table. -/
def max_col_count (table : List (List String)) : Nat :=
  table.foldl (fun m r => max m r.length) 0

/-- The inner width pass of lines 1160-1162 for one row: index `i` of
the widths vector becomes `max widths[i] (row[i].length)` for every
`i < row.length` (the row is never longer than the widths vector). -/
def updateRow : List Nat → List String → List Nat
  | ws, [] => ws
  | [], _ :: _ => []
  | w :: ws, c :: cs => max w c.length :: updateRow ws cs

/-- `tab_col_width` (lines 1153-1165): widths start as
`max_col_count` zeros, every row is folded in, then the padding is
added to every column. -/
def tab_col_width (table : List (List String)) (col_padding : Nat) : List Nat :=
  (table.foldl updateRow (List.replicate (max_col_count table) 0)).map
    (fun w => w + col_padding)

/-- The length a row contributes to column `i`: the cell's length when
the row has a cell there, otherwise nothing (0). -/
def cellIf (r : List String) (i : Nat) : Nat :=
  if i < r.length then (r.getD i "").length else 0

/-- Spec-side definition (from the words of the spec, section 4.3):
`max(len(row[i]) for all rows where i < len(row))`, defaulting to 0
when no row contributes; rows shorter than `i` contribute nothing. -/
def colMax_spec (table : List (List String)) (i : Nat) : Nat :=
  table.foldl (fun a r => max a (cellIf r i)) 0

/-- `max_col_width` of `get_tab_border` (lines 176-183): the width sum
adjusted by `col_width.size() - 1`. The C++ mixes `int` and `size_t`;
two's-complement wraparound makes the stored `int` equal to this exact
integer for all magnitudes below 2^31. -/
def mcw (col_width : List Nat) : Int :=
  (col_width.sum : Int) - ((col_width.length : Int) - 1)

/-- The nested fill loop of `get_tab_border` (lines 188-197): for each
column emit `width` fill glyphs and, after the last fill glyph of a
column, the junction glyph whenever `temp_col_width < max_col_width - 1`
(with `temp_col_width` already advanced by `width - 1`). -/
def fillCols (b : BLine) (m : Int) : Int → List Nat → List String
  | _, [] => []
  | temp, w :: ws =>
    (List.replicate w b.fill_char_unicode ++
      (if 0 < w ∧ temp + (w : Int) - 1 < m - 1 then [b.mid_char_unicode] else []))
    ++ fillCols b m (temp + (w : Int) - 1) ws

/-- The glyphs of one border line: left corner, the fill/junction run,
right corner (everything `get_tab_border` emits except the color, the
reset and the terminator). -/
def borderGlyphs (col_width : List Nat) (b : BLine) : List String :=
  b.left_char_unicode ::
    (fillCols b (mcw col_width) 0 col_width ++ [b.right_char_unicode])

/-- `get_tab_border` (lines 167-202) as an output chunk list:
color, glyphs, reset, newline. -/
def get_tab_border (col_width : List Nat) (b : BLine) (table_color : String) :
    List String :=
  table_color :: (borderGlyphs col_width b ++ [DEFAULT, "\n"])

/-- Spec-side definition (from the words of the spec, section 4.5): the
fill/junction run with exactly one junction glyph between adjacent
columns and none after the last column. -/
def joinFills (b : BLine) : List Nat → List String
  | [] => []
  | w :: ws =>
    List.replicate w b.fill_char_unicode ++
      (match ws with
       | [] => ([] : List String)
       | _ :: _ => b.mid_char_unicode :: joinFills b ws)

/-- The alignment mode chosen at line 1195 for a cell of the current
row: header alignment on the first line of a headed table, body
alignment otherwise. -/
def alignFor (first : Bool) (cfg : Config) : String :=
  if first = true ∧ cfg.headerless = false then cfg.header_text_align
  else if first = false ∨ cfg.headerless = true then cfg.body_text_align
  else ALIGN_LEFT

/-- The chunks printed for one cell (lines 1187-1203): the header style
run or empty, the body style run or empty, the `setw`-padded aligned
cell, the reset, the table color, and the vertical divider when borders
are on (the C++ `"\0"` prints nothing). `align_text` always returns the
passed width as the pair's first component, so `setw` receives `w`. -/
def cellChunks (first : Bool) (cfg : Config) (cell : String) (w : Nat) :
    List String :=
  [(if first = true ∧ cfg.headerless = false
    then cfg.header_text_style ++ cfg.header_bg_color ++ cfg.header_text_color
    else ""),
   (if first = false ∨ cfg.headerless = true
    then cfg.body_text_style ++ cfg.body_bg_color ++ cfg.body_text_color
    else ""),
   setwLeft (align_text cell w (alignFor first cfg)).2 w,
   DEFAULT,
   cfg.table_color,
   (if cfg.use_border = true then cfg.border.vertical_line else "")]

/-- The cell loop of lines 1187-1203: one cell per column index up to
the widths vector's length, with the empty string for a missing cell. -/
def rowCells (first : Bool) (cfg : Config) : List Nat → List String → List String
  | [], _ => []
  | w :: ws, [] => cellChunks first cfg "" w ++ rowCells first cfg ws []
  | w :: ws, c :: cs => cellChunks first cfg c w ++ rowCells first cfg ws cs

/-- One rendered row (lines 1184-1206): left divider when borders are
on, the cells, the `endl`. -/
def rowChunks (first : Bool) (cfg : Config) (ws : List Nat) (row : List String) :
    List String :=
  (if cfg.use_border = true
   then [cfg.table_color, cfg.border.vertical_line, DEFAULT] else [])
  ++ rowCells first cfg ws row ++ ["\n"]

/-- The render loop over rows (lines 1171-1221): top border before the
first row, the row, the header separator after the first row of a
headed bordered table, then the rest with `first_line` false. -/
def renderRows (cfg : Config) (ws : List Nat) : Bool → List (List String) → List String
  | _, [] => []
  | first, row :: rest =>
    (if first = true ∧ cfg.use_border = true
     then get_tab_border ws cfg.border.top cfg.table_color else [])
    ++ rowChunks first cfg ws row
    ++ (if first = true ∧ cfg.headerless = false ∧ cfg.use_border = true ∧
          cfg.use_separator = true
        then get_tab_border ws cfg.border.separator cfg.table_color else [])
    ++ renderRows cfg ws false rest

/-- The full rendering phase (lines 1171-1244): the row loop followed by
the bottom border when borders are on. -/
def renderTable (cfg : Config) (table : List (List String)) : List String :=
  renderRows cfg (tab_col_width table cfg.col_padding) true table
  ++ (if cfg.use_border = true
      then get_tab_border (tab_col_width table cfg.col_padding)
        cfg.border.bottom cfg.table_color
      else [])

/-- The whole core of `main` after flag parsing (lines 1059-1244):
collect stdin, substitute the explicit header, render. `none` marks the
out-of-bounds header write of line 1143. -/
def run_pipeline (cfg : Config) (input : List Char) : Option (List String) :=
  match set_header cfg (collect input cfg.col_separator cfg.exclude_first_line) with
  | none => none
  | some table => some (renderTable cfg table)

/-- A chunk is a styling (ANSI escape) chunk iff it begins with ESC. -/
def isSgr (s : String) : Bool :=
  decide (s.data.head? = some '\x1b')

/-- Strip styling from an output chunk list ("stripped of styling"). -/
def stripStyle (cs : List String) : List String :=
  cs.filter (fun c => !(isSgr c))

/-- The character stream of an output chunk list. -/
def chunkChars (cs : List String) : List Char :=
  (cs.map String.data).flatten

/-- The characters a borderless, unstyled row prints for its cells:
one aligned block per column, with the empty string for missing cells. -/
def blocksOf (m : String) : List Nat → List String → List Char
  | [], _ => []
  | w :: ws, [] => List.replicate w ' ' ++ blocksOf m ws []
  | w :: ws, c :: cs => (align_text c w m).2.data ++ blocksOf m ws cs

/-- The characters of the whole borderless, unstyled rendered body. -/
def bodyChars (cfg : Config) (ws : List Nat) : Bool → List (List String) → List Char
  | _, [] => []
  | first, r :: rs =>
    blocksOf (alignFor first cfg) ws r ++ '\n' :: bodyChars cfg ws false rs

/-- ANSI activity transition for one chunk: a reset clears the active
style, another escape chunk sets it, anything else keeps it. -/
def sgrStep (act : Bool) (c : String) : Bool :=
  if c = DEFAULT then false else if isSgr c then true else act

/-- ANSI activity after a chunk list. -/
def actAfter (act : Bool) (cs : List String) : Bool :=
  cs.foldl sgrStep act

/-- Checks that no style is active at any line terminator chunk. -/
def linesOk (act : Bool) : List String → Bool
  | [] => true
  | c :: rest =>
    (if c = "\n" then !act else true) && linesOk (sgrStep act c) rest

/-- The property claimed of the output: no style run is active across a
line terminator, and none is active at the end of the output. -/
def noLeakB (cs : List String) : Bool :=
  linesOk false cs && !(actAfter false cs)

/-- A cell as produced by tokenization with the space separator:
non-empty, containing neither the separator nor a newline, and not
starting an ANSI escape. -/
def goodCell (c : String) : Prop :=
  c ≠ "" ∧ ∀ ch ∈ c.data, ch ≠ ' ' ∧ ch ≠ '\n' ∧ ch ≠ '\x1b'

/-- A table whose rows are non-empty and whose cells are `goodCell`. -/
def goodTable (t : List (List String)) : Prop :=
  ∀ r ∈ t, r ≠ [] ∧ ∀ c ∈ r, goodCell c

/-- A style field as the CLI layer can produce it: empty or an ANSI
escape sequence. -/
def styleLike (s : String) : Prop :=
  s = "" ∨ s.data.head? = some '\x1b'

/-- A border glyph as every preset has it: not a line terminator and
not an ANSI escape. -/
def plainGlyph (g : String) : Prop :=
  g ≠ "\n" ∧ g.data.head? ≠ some '\x1b'

/-- All four glyphs of one border line are plain. -/
def plainBLine (b : BLine) : Prop :=
  plainGlyph b.left_char_unicode ∧ plainGlyph b.mid_char_unicode ∧
  plainGlyph b.right_char_unicode ∧ plainGlyph b.fill_char_unicode

/-- All glyphs of a border style are plain. -/
def plainBorder (tb : TabBorder) : Prop :=
  plainBLine tb.top ∧ plainBLine tb.separator ∧ plainBLine tb.bottom ∧
  plainGlyph tb.vertical_line

/-- All the style fields of a config are `styleLike`. -/
def styleLikeCfg (cfg : Config) : Prop :=
  styleLike cfg.header_text_style ∧ styleLike cfg.header_bg_color ∧
  styleLike cfg.header_text_color ∧ styleLike cfg.body_text_style ∧
  styleLike cfg.body_bg_color ∧ styleLike cfg.body_text_color

/-- The config of `--hdata=id,name` with otherwise default options. -/
def cfgHdata : Config :=
  ⟨false, false, true, true, "", "", "", "", "", "", "",
   ALIGN_LEFT, ALIGN_LEFT, ["id", "name"], ' ', singleBorder, 2⟩

/-- The config of `--borderless --separator=tab` with otherwise default
options. -/
def cfgTab : Config :=
  ⟨false, false, false, true, "", "", "", "", "", "", "",
   ALIGN_LEFT, ALIGN_LEFT, [], '\t', singleBorder, 2⟩

/-- The config of `--tab-color=red` with otherwise default options. -/
def cfgRed : Config :=
  ⟨false, false, true, true, RED, "", "", "", "", "", "",
   ALIGN_LEFT, ALIGN_LEFT, [], ' ', singleBorder, 2⟩

/-- The config of `--borderless` with otherwise default options. -/
def cfgPlain : Config :=
  ⟨false, false, false, true, "", "", "", "", "", "", "",
   ALIGN_LEFT, ALIGN_LEFT, [], ' ', singleBorder, 2⟩

-- ---------------------------------------------------------------------
-- Helper lemmas
-- ---------------------------------------------------------------------

theorem sdata_append (s t : String) : (s ++ t).data = s.data ++ t.data := by
  cases s; cases t; rfl

theorem slen (s : String) : s.length = s.data.length := rfl

theorem smk_data (l : List Char) : (String.mk l).data = l := rfl

theorem smk_ne_empty (a : Char) (l : List Char) : String.mk (a :: l) ≠ "" := by
  intro h
  exact List.cons_ne_nil a l (congrArg String.data h)

theorem spacesStr_data (n : Nat) : (spacesStr n).data = List.replicate n ' ' := rfl

theorem spacesStr_length (n : Nat) : (spacesStr n).length = n := by
  rw [slen, spacesStr_data, List.length_replicate]

theorem string_eq_of_data (s t : String) (h : s.data = t.data) : s = t :=
  congrArg String.mk h

theorem append_empty_str (s : String) : s ++ "" = s := by
  apply string_eq_of_data
  simp [sdata_append]

theorem empty_append_str (s : String) : "" ++ s = s := by
  apply string_eq_of_data
  simp [sdata_append]

theorem slen_append (s t : String) : (s ++ t).length = s.length + t.length := by
  rw [slen, sdata_append, List.length_append, slen, slen]

theorem spacesStr_zero : spacesStr 0 = "" := rfl

theorem ite_sub_eq_sub (w n : Nat) :
    (if w > n then w - n else 0) = w - n := by
  split
  · rfl
  · omega

theorem align_ne_lr : ¬ (ALIGN_LEFT = ALIGN_RIGHT) := by decide

theorem align_ne_lc : ¬ (ALIGN_LEFT = ALIGN_CENTER) := by decide

theorem align_ne_cr : ¬ (ALIGN_CENTER = ALIGN_RIGHT) := by decide

-- Branch evaluation lemmas for align_text.
theorem align_eval_right (c : String) (w : Nat) :
    align_text c w ALIGN_RIGHT = (w, spacesStr (w - c.length) ++ c) := by
  simp only [align_text, if_pos rfl, eq_self_iff_true, if_true, ite_sub_eq_sub]

theorem align_eval_center (c : String) (w : Nat) :
    align_text c w ALIGN_CENTER =
      (w, spacesStr ((w - c.length) / 2) ++ c ++
        spacesStr ((w - c.length) - (w - c.length) / 2)) := by
  simp only [align_text, if_neg align_ne_cr, if_pos rfl, eq_self_iff_true,
    if_true, ite_sub_eq_sub]

theorem align_eval_other (c : String) (w : Nat) (m : String)
    (h1 : ¬ (m = ALIGN_RIGHT)) (h2 : ¬ (m = ALIGN_CENTER)) :
    align_text c w m = (w, c ++ spacesStr (w - c.length)) := by
  simp only [align_text, if_neg h1, if_neg h2, ite_sub_eq_sub]

-- Length of an aligned cell: max of the width and the content length.
theorem align_len (c : String) (w : Nat) (m : String) :
    (align_text c w m).2.length = max w c.length := by
  by_cases hr : m = ALIGN_RIGHT
  · rw [hr, align_eval_right]
    simp only [slen_append, spacesStr_length]
    omega
  · by_cases hc : m = ALIGN_CENTER
    · rw [hc, align_eval_center]
      simp only [slen_append, spacesStr_length]
      omega
    · rw [align_eval_other c w m hr hc]
      simp only [slen_append, spacesStr_length]
      omega

-- setw never adds anything after align_text.
theorem setw_align (c : String) (w : Nat) (m : String) :
    setwLeft (align_text c w m).2 w = (align_text c w m).2 := by
  unfold setwLeft
  have h := align_len c w m
  have h0 : w - (align_text c w m).2.length = 0 := by omega
  rw [h0]
  exact append_empty_str _

-- ---------------------------------------------------------------------
-- C6: alignment
-- ---------------------------------------------------------------------

/-- C6: for every string and width, `align_text` pads with spaces only,
to length exactly `max width (length text)`; with `left` the pad is
trailing, with `right` leading, with `center` split as
`floor(pad/2)` left and the remainder right, so the left pad is at most
the right pad, which exceeds it by at most one; and whenever
`len(text) ≥ width` all three modes return the text unchanged. -/
theorem C6_align (s : String) (w : Nat) :
    ((align_text s w ALIGN_LEFT).2 = s ++ spacesStr (w - s.length)) ∧
    ((align_text s w ALIGN_RIGHT).2 = spacesStr (w - s.length) ++ s) ∧
    ((align_text s w ALIGN_CENTER).2 =
      spacesStr ((w - s.length) / 2) ++ s ++
        spacesStr ((w - s.length) - (w - s.length) / 2)) ∧
    ((align_text s w ALIGN_LEFT).2.length = max w s.length) ∧
    ((align_text s w ALIGN_RIGHT).2.length = max w s.length) ∧
    ((align_text s w ALIGN_CENTER).2.length = max w s.length) ∧
    ((w - s.length) / 2 ≤ (w - s.length) - (w - s.length) / 2) ∧
    ((w - s.length) - (w - s.length) / 2 ≤ (w - s.length) / 2 + 1) ∧
    (w ≤ s.length →
      (align_text s w ALIGN_LEFT).2 = s ∧
      (align_text s w ALIGN_RIGHT).2 = s ∧
      (align_text s w ALIGN_CENTER).2 = s) := by
  have hL : (align_text s w ALIGN_LEFT).2 = s ++ spacesStr (w - s.length) := by
    rw [align_eval_other s w ALIGN_LEFT align_ne_lr align_ne_lc]
  have hR : (align_text s w ALIGN_RIGHT).2 = spacesStr (w - s.length) ++ s := by
    rw [align_eval_right]
  have hC : (align_text s w ALIGN_CENTER).2 =
      spacesStr ((w - s.length) / 2) ++ s ++
        spacesStr ((w - s.length) - (w - s.length) / 2) := by
    rw [align_eval_center]
  refine ⟨hL, hR, hC, align_len s w _, align_len s w _, align_len s w _,
    by omega, by omega, ?_⟩
  intro hle
  have h0 : w - s.length = 0 := by omega
  rw [hL, hR, hC, h0]
  have hz : (0 : Nat) / 2 = 0 := by norm_num
  rw [hz, Nat.sub_zero, spacesStr_zero, append_empty_str, empty_append_str,
    append_empty_str]
  exact ⟨rfl, rfl, rfl⟩

/-- Witness for C6 at `s = "ab"`, `w = 5`. -/
theorem C6_align_w :
    ((align_text "ab" 5 ALIGN_LEFT).2 = "ab" ++ spacesStr (5 - ("ab").length)) ∧
    ((align_text "ab" 5 ALIGN_RIGHT).2 = spacesStr (5 - ("ab").length) ++ "ab") ∧
    ((align_text "ab" 5 ALIGN_CENTER).2 =
      spacesStr ((5 - ("ab").length) / 2) ++ "ab" ++
        spacesStr ((5 - ("ab").length) - (5 - ("ab").length) / 2)) ∧
    ((align_text "ab" 5 ALIGN_LEFT).2.length = max 5 ("ab").length) ∧
    ((align_text "ab" 5 ALIGN_RIGHT).2.length = max 5 ("ab").length) ∧
    ((align_text "ab" 5 ALIGN_CENTER).2.length = max 5 ("ab").length) ∧
    ((5 - ("ab").length) / 2 ≤ (5 - ("ab").length) - (5 - ("ab").length) / 2) ∧
    ((5 - ("ab").length) - (5 - ("ab").length) / 2 ≤ (5 - ("ab").length) / 2 + 1) ∧
    (5 ≤ ("ab").length →
      (align_text "ab" 5 ALIGN_LEFT).2 = "ab" ∧
      (align_text "ab" 5 ALIGN_RIGHT).2 = "ab" ∧
      (align_text "ab" 5 ALIGN_CENTER).2 = "ab") :=
  C6_align "ab" 5

-- ---------------------------------------------------------------------
-- Width computation lemmas
-- ---------------------------------------------------------------------

theorem cellIf_nil (i : Nat) : cellIf [] i = 0 := by
  simp [cellIf]

theorem cellIf_cons_zero (c : String) (cs : List String) :
    cellIf (c :: cs) 0 = c.length := by
  simp [cellIf]

theorem cellIf_cons_succ (c : String) (cs : List String) (i : Nat) :
    cellIf (c :: cs) (i + 1) = cellIf cs i := by
  simp [cellIf, Nat.succ_lt_succ_iff]

theorem updateRow_length : ∀ (ws : List Nat) (row : List String),
    (updateRow ws row).length = ws.length
  | _, [] => by simp [updateRow]
  | [], _ :: _ => rfl
  | w :: ws, c :: cs => by
    simp [updateRow, updateRow_length ws cs]

theorem updateRow_getD : ∀ (ws : List Nat) (row : List String) (i : Nat),
    row.length ≤ ws.length →
    (updateRow ws row).getD i 0 = max (ws.getD i 0) (cellIf row i)
  | ws, [], i, _ => by simp [updateRow, cellIf_nil]
  | [], c :: cs, i, h => by simp at h
  | w :: ws, c :: cs, 0, h => by
    simp [updateRow, cellIf_cons_zero]
  | w :: ws, c :: cs, i + 1, h => by
    simp only [updateRow, List.getD_cons_succ, cellIf_cons_succ]
    exact updateRow_getD ws cs i (by simpa using h)

theorem fold_updateRow_length : ∀ (t : List (List String)) (ws : List Nat),
    (t.foldl updateRow ws).length = ws.length
  | [], ws => rfl
  | r :: t, ws => by
    simp only [List.foldl_cons]
    rw [fold_updateRow_length t (updateRow ws r), updateRow_length]

theorem fold_updateRow_getD : ∀ (t : List (List String)) (ws : List Nat) (i : Nat),
    (∀ r ∈ t, r.length ≤ ws.length) →
    (t.foldl updateRow ws).getD i 0 =
      t.foldl (fun a r => max a (cellIf r i)) (ws.getD i 0)
  | [], ws, i, _ => rfl
  | r :: t, ws, i, h => by
    simp only [List.foldl_cons]
    rw [fold_updateRow_getD t (updateRow ws r) i ?hlen,
      updateRow_getD ws r i (h r (by simp))]
    case hlen =>
      intro r' hr'
      rw [updateRow_length]
      exact h r' (by simp [hr'])

theorem foldl_max_ge_init : ∀ (t : List (List String)) (a : Nat),
    a ≤ t.foldl (fun m r => max m r.length) a
  | [], a => le_refl a
  | r :: t, a => by
    simp only [List.foldl_cons]
    exact le_trans (Nat.le_max_left a r.length) (foldl_max_ge_init t _)

theorem length_le_foldl_max : ∀ (t : List (List String)) (a : Nat) (r : List String),
    r ∈ t → r.length ≤ t.foldl (fun m r => max m r.length) a
  | [], a, r, h => absurd h (List.not_mem_nil r)
  | r' :: t, a, r, h => by
    simp only [List.foldl_cons]
    rcases List.mem_cons.mp h with h | h
    · subst h
      exact le_trans (Nat.le_max_right a r.length) (foldl_max_ge_init t _)
    · exact length_le_foldl_max t _ r h

theorem length_le_max_col (t : List (List String)) (r : List String) (h : r ∈ t) :
    r.length ≤ max_col_count t :=
  length_le_foldl_max t 0 r h

theorem replicate_getD : ∀ (n i : Nat), (List.replicate n (0 : Nat)).getD i 0 = 0
  | 0, _ => by simp
  | n + 1, 0 => by simp [List.replicate]
  | n + 1, i + 1 => by
    simp only [List.replicate, List.getD_cons_succ]
    exact replicate_getD n i

theorem map_add_getD : ∀ (l : List Nat) (p i : Nat), i < l.length →
    (l.map (fun w => w + p)).getD i 0 = l.getD i 0 + p
  | [], p, i, h => by simp at h
  | w :: l, p, 0, _ => by simp
  | w :: l, p, i + 1, h => by
    simp only [List.map_cons, List.getD_cons_succ]
    exact map_add_getD l p i (by simpa using h)

theorem tab_col_width_length (table : List (List String)) (padding : Nat) :
    (tab_col_width table padding).length = max_col_count table := by
  unfold tab_col_width
  rw [List.length_map, fold_updateRow_length, List.length_replicate]

theorem tab_col_width_getD (table : List (List String)) (padding : Nat)
    (i : Nat) (hi : i < max_col_count table) :
    (tab_col_width table padding).getD i 0 = colMax_spec table i + padding := by
  unfold tab_col_width
  have hlen : i < (table.foldl updateRow
      (List.replicate (max_col_count table) 0)).length := by
    rw [fold_updateRow_length, List.length_replicate]
    exact hi
  rw [map_add_getD _ _ _ hlen,
    fold_updateRow_getD table _ i (by
      intro r hr
      rw [List.length_replicate]
      exact length_le_max_col table r hr),
    replicate_getD]
  rfl

-- ---------------------------------------------------------------------
-- C5: column width computation
-- ---------------------------------------------------------------------

/-- C5: for every table and padding, the computed widths vector has one
entry per column of the longest row, and entry `i` is the maximum
length of the cells present at index `i` plus the padding; rows without
a cell at `i` contribute nothing (`cellIf` is 0 there). -/
theorem C5_widths (table : List (List String)) (padding : Nat) (i : Nat)
    (hi : i < max_col_count table) :
    (tab_col_width table padding).length = max_col_count table ∧
    (tab_col_width table padding).getD i 0 = colMax_spec table i + padding :=
  ⟨tab_col_width_length table padding, tab_col_width_getD table padding i hi⟩

/-- Witness for C5 at a concrete ragged table and padding 1. -/
theorem C5_widths_w :
    (tab_col_width [["a", "bb"], ["ccc"]] 1).length =
      max_col_count [["a", "bb"], ["ccc"]] ∧
    (tab_col_width [["a", "bb"], ["ccc"]] 1).getD 1 0 =
      colMax_spec [["a", "bb"], ["ccc"]] 1 + 1 :=
  C5_widths [["a", "bb"], ["ccc"]] 1 1 (by decide)

-- ---------------------------------------------------------------------
-- C7: explicit header substitution
-- ---------------------------------------------------------------------

/-- C7: with a non-empty explicit header list, if header exclusion is
off then row 0 of a non-empty table is replaced wholesale by the list
(the remaining rows are untouched); if header exclusion is set the
explicit header list is not applied at all. -/
theorem C7_header (cfg : Config) (r : List String) (rs : List (List String))
    (hh : cfg.usrinput_header_data ≠ []) :
    (cfg.exclude_first_line = false →
      set_header cfg (r :: rs) = some (cfg.usrinput_header_data :: rs)) ∧
    (cfg.exclude_first_line = true →
      set_header cfg (r :: rs) = some (r :: rs)) := by
  constructor
  · intro hex
    simp [set_header, hh, hex]
  · intro hex
    simp [set_header, hex]

/-- Witness for C7 at `--hdata=id,name` and the table of `"x y\na b\n"`. -/
theorem C7_header_w :
    (cfgHdata.exclude_first_line = false →
      set_header cfgHdata [["x", "y"], ["a", "b"]] =
        some (cfgHdata.usrinput_header_data :: [["a", "b"]])) ∧
    (cfgHdata.exclude_first_line = true →
      set_header cfgHdata [["x", "y"], ["a", "b"]] =
        some [["x", "y"], ["a", "b"]]) :=
  C7_header cfgHdata ["x", "y"] [["a", "b"]] (by decide)

-- ---------------------------------------------------------------------
-- C2: the pipeline can fail (code bug)
-- ---------------------------------------------------------------------

/-- C2: contrary to the claim, the core pipeline fails on a well-formed
input: with empty stdin, a non-empty explicit header list and header
exclusion off, line 1143 (`cmdout_tab_data[0] = usrinput_header_data`)
indexes row 0 of an empty vector — an out-of-bounds access, modelled as
`none`. -/
theorem C2_oob : run_pipeline cfgHdata [] = none := by decide

-- ---------------------------------------------------------------------
-- C4: header exclusion misses the EOF-flushed token (code bug)
-- ---------------------------------------------------------------------

/-- C4: contrary to the claim, with header exclusion set and the input
`"a b"` (first logical row ends at end of stream, no trailing newline),
the final token `"b"` of the excluded first row is stored: the EOF
flush of lines 1119-1135 performs no exclusion check, so the collected
table is `[["b"]]` instead of being empty. -/
theorem C4_eof :
    collect ("a b").data ' ' true = [["b"]] ∧
    collect ("a b").data ' ' true ≠ [] := by
  constructor
  · decide
  · decide

-- ---------------------------------------------------------------------
-- C10: determinism
-- ---------------------------------------------------------------------

/-- C10: the core is deterministic — two runs on equal inputs with equal
configurations produce identical output chunk streams. In this
embedding the whole core is the pure function `run_pipeline` of the
configuration and the input characters, so equal arguments give equal
output. -/
theorem C10_det (c1 c2 : Config) (i1 i2 : List Char)
    (h1 : c1 = c2) (h2 : i1 = i2) :
    run_pipeline c1 i1 = run_pipeline c2 i2 := by
  rw [h1, h2]

/-- Witness for C10 at the default configuration and input `"a"`. -/
theorem C10_det_w :
    run_pipeline defaultCfg (("a").data) = run_pipeline defaultCfg (("a").data) :=
  C10_det defaultCfg defaultCfg (("a").data) (("a").data) rfl rfl

-- ---------------------------------------------------------------------
-- Border renderer lemmas
-- ---------------------------------------------------------------------

theorem twice_len_le_sum : ∀ (l : List Nat), (∀ x ∈ l, 2 ≤ x) →
    2 * l.length ≤ l.sum
  | [], _ => by simp
  | w :: l, h => by
    simp only [List.length_cons, List.sum_cons]
    have h1 : 2 ≤ w := h w (by simp)
    have h2 := twice_len_le_sum l (fun x hx => h x (by simp [hx]))
    omega

theorem fillCols_eq (b : BLine) : ∀ (ws : List Nat) (temp m : Int),
    (∀ w ∈ ws, 2 ≤ w) → m - temp = (ws.sum : Int) - ws.length + 1 →
    fillCols b m temp ws = joinFills b ws
  | [], _, _, _, _ => rfl
  | [w], temp, m, hw, hm => by
    have hwge : 2 ≤ w := hw w (by simp)
    have hcond : ¬ (0 < w ∧ temp + (w : Int) - 1 < m - 1) := by
      simp only [List.sum_cons, List.sum_nil, List.length_cons,
        List.length_nil] at hm
      push_cast at hm
      intro hc
      omega
    rw [show fillCols b m temp [w] =
      (List.replicate w b.fill_char_unicode ++
        (if 0 < w ∧ temp + (w : Int) - 1 < m - 1 then [b.mid_char_unicode]
         else [])) ++ fillCols b m (temp + (w : Int) - 1) [] from rfl]
    rw [if_neg hcond]
    simp [fillCols, joinFills]
  | w :: w' :: ws, temp, m, hw, hm => by
    have hwge : 2 ≤ w := hw w (by simp)
    have hwge' : 2 ≤ w' := hw w' (by simp)
    have hs2 : 2 * ws.length ≤ ws.sum :=
      twice_len_le_sum ws (fun x hx => hw x (by simp [hx]))
    have hs2i : (2 : Int) * ws.length ≤ (ws.sum : Int) := by exact_mod_cast hs2
    push_cast at hs2i
    simp only [List.sum_cons, List.length_cons] at hm
    push_cast at hm
    have hcond : 0 < w ∧ temp + (w : Int) - 1 < m - 1 := by
      constructor
      · omega
      · omega
    have hrec := fillCols_eq b (w' :: ws) (temp + (w : Int) - 1) m
      (fun x hx => hw x (by simp at hx; rcases hx with hx | hx <;> simp [hx]))
      (by
        simp only [List.sum_cons, List.length_cons]
        push_cast
        omega)
    rw [show fillCols b m temp (w :: w' :: ws) =
      (List.replicate w b.fill_char_unicode ++
        (if 0 < w ∧ temp + (w : Int) - 1 < m - 1 then [b.mid_char_unicode]
         else [])) ++ fillCols b m (temp + (w : Int) - 1) (w' :: ws) from rfl]
    rw [if_pos hcond, hrec]
    rw [show joinFills b (w :: w' :: ws) =
      List.replicate w b.fill_char_unicode ++
        (b.mid_char_unicode :: joinFills b (w' :: ws)) from rfl]
    simp [List.append_assoc]

theorem borderGlyphs_eq (ws : List Nat) (b : BLine) (h2 : ∀ w ∈ ws, 2 ≤ w) :
    borderGlyphs ws b =
      b.left_char_unicode :: (joinFills b ws ++ [b.right_char_unicode]) := by
  unfold borderGlyphs
  rw [fillCols_eq b ws 0 (mcw ws) h2 (by unfold mcw; push_cast; ring)]

theorem joinFills_length (b : BLine) : ∀ (ws : List Nat), ws ≠ [] →
    (joinFills b ws).length = ws.sum + (ws.length - 1)
  | [], h => absurd rfl h
  | [w], _ => by simp [joinFills]
  | w :: w' :: ws, _ => by
    have h := joinFills_length b (w' :: ws) (by simp)
    rw [show joinFills b (w :: w' :: ws) =
      List.replicate w b.fill_char_unicode ++
        (b.mid_char_unicode :: joinFills b (w' :: ws)) from rfl]
    simp only [List.length_append, List.length_replicate, List.length_cons,
      List.sum_cons, h]
    simp only [List.sum_cons] at h
    omega

-- ---------------------------------------------------------------------
-- C3: border line shape
-- ---------------------------------------------------------------------

/-- C3 (amended): provided every column width is at least 2 — which
holds whenever the padding is at least 1, since every contributing
stored cell is non-empty — the border glyphs are the left corner, then
per column a run of `width` fill glyphs with exactly one junction glyph
between adjacent columns and none after the last, then the right
corner; the glyph count is `2 + sum(width) + (columnCount - 1)`. (For
width-1 columns the source can omit junctions, see the
counterexample.) -/
theorem C3_border (ws : List Nat) (b : BLine) (h1 : ws ≠ [])
    (h2 : ∀ w ∈ ws, 2 ≤ w) :
    borderGlyphs ws b =
      b.left_char_unicode :: (joinFills b ws ++ [b.right_char_unicode]) ∧
    (borderGlyphs ws b).length = 2 + ws.sum + (ws.length - 1) := by
  refine ⟨borderGlyphs_eq ws b h2, ?_⟩
  rw [borderGlyphs_eq ws b h2]
  simp only [List.length_cons, List.length_append, List.length_nil,
    joinFills_length b ws h1]
  omega

/-- Witness for C3 at widths `[2, 3]` and the default top border line. -/
theorem C3_border_w :
    borderGlyphs [2, 3] singleBorder.top =
      singleBorder.top.left_char_unicode ::
        (joinFills singleBorder.top [2, 3] ++
          [singleBorder.top.right_char_unicode]) ∧
    (borderGlyphs [2, 3] singleBorder.top).length =
      2 + ([2, 3] : List Nat).sum + (([2, 3] : List Nat).length - 1) :=
  C3_border [2, 3] singleBorder.top (by decide) (by decide)

/-- C3 counterexample: at widths `[1, 1]` (cell length 1, padding 0 —
a legal width assignment under the claim) the junction between the two
columns is omitted: the line has 4 glyphs, not the claimed
`2 + 2 + 1 = 5`, and the junction glyph does not occur at all. -/
theorem C3_cex :
    (borderGlyphs [1, 1] singleBorder.top).length ≠
      2 + ([1, 1] : List Nat).sum + (([1, 1] : List Nat).length - 1) ∧
    singleBorder.top.mid_char_unicode ∉ borderGlyphs [1, 1] singleBorder.top := by
  constructor
  · decide
  · decide

-- ---------------------------------------------------------------------
-- C1: empty input
-- ---------------------------------------------------------------------

/-- C1 (amended): for empty input (no collected rows) under any
configuration without an explicit header list, with borders enabled
the program renders exactly one border line — the bottom border (the
top border is only emitted before a first row, and there is none) —
and with borders disabled it emits nothing. -/
theorem C1_empty (cfg : Config) (h : cfg.usrinput_header_data = []) :
    run_pipeline cfg [] =
      some (if cfg.use_border = true
        then get_tab_border [] cfg.border.bottom cfg.table_color
        else []) := by
  unfold run_pipeline
  have hc : collect [] cfg.col_separator cfg.exclude_first_line = [] := rfl
  have hs : set_header cfg [] = some [] := by simp [set_header, h]
  rw [hc, hs]
  show some (renderTable cfg []) = _
  have hw : tab_col_width [] cfg.col_padding = [] := rfl
  unfold renderTable
  rw [hw]
  simp [renderRows]

/-- Witness for C1 at the default configuration. -/
theorem C1_empty_w :
    defaultCfg.usrinput_header_data = [] ∧
    run_pipeline defaultCfg [] =
      some (if defaultCfg.use_border = true
        then get_tab_border [] defaultCfg.border.bottom defaultCfg.table_color
        else []) :=
  ⟨rfl, C1_empty defaultCfg rfl⟩

/-- C1 counterexample: with the default configuration (borders on) and
empty input the emitted output has exactly one line terminator — a
single border line — and the top border's left corner glyph never
occurs, contradicting the claim that both the top and the bottom
border lines are rendered. -/
theorem C1_cex :
    (run_pipeline defaultCfg []).map (fun cs => cs.count "\n") = some 1 ∧
    (run_pipeline defaultCfg []).map
      (fun cs => decide (defaultCfg.border.top.left_char_unicode ∈ cs)) =
      some false := by
  constructor
  · decide
  · decide

-- ---------------------------------------------------------------------
-- Tokenizer step lemmas (space separator, no exclusion)
-- ---------------------------------------------------------------------

theorem is_wspace_sp_sp : is_wspace ' ' ' ' = true := by decide

theorem is_wspace_nl_sp : is_wspace '\n' ' ' = true := by decide

theorem sp_ne_nl : ¬ (' ' = '\n') := by decide

theorem is_wspace_sp_false (ch : Char) (h1 : ¬ (ch = ' ')) (h2 : ¬ (ch = '\n')) :
    is_wspace ch ' ' = false := by
  unfold is_wspace
  rw [if_pos (by decide)]
  exact decide_eq_false (by
    intro h
    rcases h with h | h
    · exact h1 h
    · exact h2 h)

theorem sdata_ne_nil (c : String) (h : c ≠ "") : c.data ≠ [] := by
  intro hd
  exact h (string_eq_of_data c "" (by rw [hd]))

theorem mk_data_eq (c : String) : String.mk c.data = c := rfl

theorem pstep_content (sep : Char) (ex : Bool) (s : PState) (c : Char)
    (h : is_wspace c sep = false) :
    pstep sep ex s c = ⟨s.queue ++ [c], s.row, s.tab, s.firstLine⟩ := by
  simp [pstep, h]

theorem pstep_space (s : PState) :
    pstep ' ' false s ' ' = ⟨[], flushTok s.queue s.row, s.tab, s.firstLine⟩ := by
  cases hq : s.queue with
  | nil => simp [pstep, is_wspace_sp_sp, sp_ne_nl, flushTok, hq]
  | cons a l => simp [pstep, is_wspace_sp_sp, sp_ne_nl, flushTok, hq,
      smk_ne_empty a l]

theorem pstep_nl (s : PState) :
    pstep ' ' false s '\n' =
      (if flushTok s.queue s.row = [] then ⟨[], [], s.tab, s.firstLine⟩
       else ⟨[], [], s.tab ++ [flushTok s.queue s.row], s.firstLine⟩) := by
  cases hq : s.queue with
  | nil =>
    cases hr : s.row with
    | nil => simp [pstep, is_wspace_nl_sp, flushTok, hq, hr]
    | cons r rs => simp [pstep, is_wspace_nl_sp, flushTok, hq, hr]
  | cons a l =>
    simp [pstep, is_wspace_nl_sp, flushTok, hq, smk_ne_empty a l]

theorem fold_content : ∀ (cs : List Char) (st : PState),
    (∀ c ∈ cs, is_wspace c ' ' = false) →
    List.foldl (pstep ' ' false) st cs =
      ⟨st.queue ++ cs, st.row, st.tab, st.firstLine⟩
  | [], st, _ => by simp
  | c :: cs, st, h => by
    simp only [List.foldl_cons]
    rw [pstep_content ' ' false st c (h c (by simp))]
    rw [fold_content cs _ (fun x hx => h x (by simp [hx]))]
    simp

theorem fold_spaces_emptyq : ∀ (n : Nat) (row : List String)
    (tab : List (List String)) (fl : Bool),
    List.foldl (pstep ' ' false) ⟨[], row, tab, fl⟩ (List.replicate n ' ') =
      ⟨[], row, tab, fl⟩
  | 0, _, _, _ => rfl
  | n + 1, row, tab, fl => by
    rw [show List.replicate (n + 1) ' ' = ' ' :: List.replicate n ' ' from rfl]
    simp only [List.foldl_cons]
    rw [pstep_space]
    simp only [flushTok, if_pos rfl]
    exact fold_spaces_emptyq n row tab fl

theorem fold_spaces_flush (n : Nat) (st : PState) :
    List.foldl (pstep ' ' false) st (List.replicate (n + 1) ' ') =
      ⟨[], flushTok st.queue st.row, st.tab, st.firstLine⟩ := by
  rw [show List.replicate (n + 1) ' ' = ' ' :: List.replicate n ' ' from rfl]
  simp only [List.foldl_cons]
  rw [pstep_space]
  exact fold_spaces_emptyq n _ _ _

-- ---------------------------------------------------------------------
-- Aligned block shapes
-- ---------------------------------------------------------------------

theorem align_shape_right (c : String) (w : Nat) :
    (align_text c w ALIGN_RIGHT).2.data =
      List.replicate (w - c.length) ' ' ++ c.data := by
  rw [align_eval_right]
  simp [sdata_append, spacesStr_data]

theorem align_shape_center (c : String) (w : Nat) :
    (align_text c w ALIGN_CENTER).2.data =
      List.replicate ((w - c.length) / 2) ' ' ++ c.data ++
        List.replicate ((w - c.length) - (w - c.length) / 2) ' ' := by
  rw [align_eval_center]
  simp [sdata_append, spacesStr_data]

theorem align_shape_other (c : String) (w : Nat) (m : String)
    (h1 : ¬ (m = ALIGN_RIGHT)) (h2 : ¬ (m = ALIGN_CENTER)) :
    (align_text c w m).2.data = c.data ++ List.replicate (w - c.length) ' ' := by
  rw [align_eval_other c w m h1 h2]
  simp [sdata_append, spacesStr_data]

theorem align_empty_data (w : Nat) (m : String) :
    (align_text "" w m).2.data = List.replicate w ' ' := by
  have hlen : ("" : String).length = 0 := rfl
  have hdat : ("" : String).data = [] := rfl
  by_cases h1 : m = ALIGN_RIGHT
  · rw [h1, align_shape_right, hlen, hdat, Nat.sub_zero, List.append_nil]
  · by_cases h2 : m = ALIGN_CENTER
    · rw [h2, align_shape_center, hlen, hdat, Nat.sub_zero]
      rw [List.append_nil, ← List.replicate_add]
      congr 1
      omega
    · rw [align_shape_other "" w m h1 h2, hlen, hdat, Nat.sub_zero,
        List.nil_append]

-- ---------------------------------------------------------------------
-- Processing one padded cell block
-- ---------------------------------------------------------------------

theorem fold_one_block (a b' : Nat) (cd : List Char) (acc : List String)
    (tab : List (List String)) (fl : Bool)
    (hb : 1 ≤ b') (hcd : cd ≠ [])
    (hgood : ∀ ch ∈ cd, is_wspace ch ' ' = false) :
    List.foldl (pstep ' ' false) ⟨[], acc, tab, fl⟩
      (List.replicate a ' ' ++ cd ++ List.replicate b' ' ') =
      ⟨[], acc ++ [String.mk cd], tab, fl⟩ := by
  rw [List.foldl_append, List.foldl_append]
  rw [fold_spaces_emptyq]
  rw [fold_content cd _ hgood]
  obtain ⟨b'', rfl⟩ : ∃ k, b' = k + 1 := ⟨b' - 1, by omega⟩
  rw [fold_spaces_flush]
  cases cd with
  | nil => exact absurd rfl hcd
  | cons x xs => simp [flushTok]

theorem fold_blocks_empty_row (m : String) : ∀ (ws : List Nat)
    (acc : List String) (tab : List (List String)) (fl : Bool),
    List.foldl (pstep ' ' false) ⟨[], acc, tab, fl⟩ (blocksOf m ws []) =
      ⟨[], acc, tab, fl⟩
  | [], _, _, _ => rfl
  | w :: ws, acc, tab, fl => by
    rw [show blocksOf m (w :: ws) [] =
      List.replicate w ' ' ++ blocksOf m ws [] from rfl]
    rw [List.foldl_append, fold_spaces_emptyq]
    exact fold_blocks_empty_row m ws acc tab fl

theorem pair_head (row : List String) (c : String) (ws : List Nat) (w : Nat)
    (hpair : ∀ i, i < (c :: row).length →
      ((c :: row).getD i "").length + 1 ≤ ((w :: ws).getD i 0)) :
    c.length + 1 ≤ w := by
  have := hpair 0 (by simp)
  simpa using this

theorem pair_tail (row : List String) (c : String) (ws : List Nat) (w : Nat)
    (hpair : ∀ i, i < (c :: row).length →
      ((c :: row).getD i "").length + 1 ≤ ((w :: ws).getD i 0)) :
    ∀ i, i < row.length → (row.getD i "").length + 1 ≤ (ws.getD i 0) := by
  intro i hi
  have := hpair (i + 1) (by simpa using hi)
  simpa using this

theorem goodCell_wspace (c : String) (hg : goodCell c) :
    ∀ ch ∈ c.data, is_wspace ch ' ' = false := by
  intro ch hch
  have h := hg.2 ch hch
  exact is_wspace_sp_false ch h.1 h.2.1

theorem fold_blocks_notRight :
    ∀ (ws : List Nat) (row : List String) (acc : List String)
      (tab : List (List String)) (fl : Bool) (m : String),
      ¬ (m = ALIGN_RIGHT) →
      row.length ≤ ws.length →
      (∀ i, i < row.length → (row.getD i "").length + 1 ≤ ws.getD i 0) →
      (∀ c ∈ row, goodCell c) →
      List.foldl (pstep ' ' false) ⟨[], acc, tab, fl⟩ (blocksOf m ws row) =
        ⟨[], acc ++ row, tab, fl⟩
  | ws, [], acc, tab, fl, m, _, _, _, _ => by
    rw [fold_blocks_empty_row]
    simp
  | [], c :: cs, _, _, _, _, _, hlen, _, _ => by
    simp at hlen
  | w :: ws, c :: cs, acc, tab, fl, m, hm, hlen, hpair, hcells => by
    have hcg : goodCell c := hcells c (by simp)
    have hw : c.length + 1 ≤ w := pair_head cs c ws w hpair
    have hcd : c.data ≠ [] := sdata_ne_nil c hcg.1
    have hgood := goodCell_wspace c hcg
    rw [show blocksOf m (w :: ws) (c :: cs) =
      (align_text c w m).2.data ++ blocksOf m ws cs from rfl]
    rw [List.foldl_append]
    have hblock : List.foldl (pstep ' ' false) ⟨[], acc, tab, fl⟩
        (align_text c w m).2.data = ⟨[], acc ++ [c], tab, fl⟩ := by
      by_cases hc : m = ALIGN_CENTER
      · rw [hc, align_shape_center]
        rw [fold_one_block ((w - c.length) / 2)
          ((w - c.length) - (w - c.length) / 2) c.data acc tab fl
          (by omega) hcd hgood]
      · rw [align_shape_other c w m hm hc]
        rw [show c.data ++ List.replicate (w - c.length) ' ' =
          List.replicate 0 ' ' ++ c.data ++ List.replicate (w - c.length) ' '
          from by simp]
        rw [fold_one_block 0 (w - c.length) c.data acc tab fl
          (by omega) hcd hgood]
    rw [hblock]
    rw [fold_blocks_notRight ws cs (acc ++ [c]) tab fl m hm
      (by simpa using hlen) (pair_tail cs c ws w hpair)
      (fun x hx => hcells x (by simp [hx]))]
    simp

-- ---------------------------------------------------------------------
-- Right-aligned rows keep the last cell pending until a flush
-- ---------------------------------------------------------------------

theorem flushTok_data (c : String) (acc : List String) (h : c.data ≠ []) :
    flushTok c.data acc = acc ++ [c] := by
  unfold flushTok
  rw [if_neg h]

theorem flushTok_nil (acc : List String) : flushTok [] acc = acc := by
  simp [flushTok]

theorem fold_blocks_right :
    ∀ (ws : List Nat) (row : List String) (q : List Char) (acc : List String)
      (tab : List (List String)) (fl : Bool),
      row.length ≤ ws.length →
      (∀ i, i < row.length → (row.getD i "").length + 1 ≤ ws.getD i 0) →
      (∀ c ∈ row, goodCell c) →
      (∀ w ∈ ws, 1 ≤ w) →
      List.foldl (pstep ' ' false) ⟨q, acc, tab, fl⟩
        (blocksOf ALIGN_RIGHT ws row) =
        (if row.length = ws.length then
          (if row = [] then (⟨q, acc, tab, fl⟩ : PState)
           else ⟨(row.getLastD "").data, flushTok q acc ++ row.dropLast, tab, fl⟩)
         else ⟨[], flushTok q acc ++ row, tab, fl⟩)
  | [], [], q, acc, tab, fl, _, _, _, _ => by
    simp [blocksOf]
  | [], c :: cs, _, _, _, _, hlen, _, _, _ => by
    simp at hlen
  | w :: ws, [], q, acc, tab, fl, _, _, _, hws => by
    rw [show blocksOf ALIGN_RIGHT (w :: ws) [] =
      List.replicate w ' ' ++ blocksOf ALIGN_RIGHT ws [] from rfl]
    rw [List.foldl_append]
    obtain ⟨k, hk⟩ : ∃ k, w = k + 1 := ⟨w - 1, by
      have := hws w (by simp)
      omega⟩
    rw [hk, fold_spaces_flush]
    rw [fold_blocks_right ws [] [] (flushTok q acc) tab fl (by simp)
      (by simp) (by simp) (fun x hx => hws x (by simp [hx]))]
    split_ifs <;> simp_all [flushTok_nil]
  | w :: ws, c :: cs, q, acc, tab, fl, hlen, hpair, hcells, hws => by
    have hcg : goodCell c := hcells c (by simp)
    have hw : c.length + 1 ≤ w := pair_head cs c ws w hpair
    have hcd : c.data ≠ [] := sdata_ne_nil c hcg.1
    have hgood := goodCell_wspace c hcg
    rw [show blocksOf ALIGN_RIGHT (w :: ws) (c :: cs) =
      (align_text c w ALIGN_RIGHT).2.data ++ blocksOf ALIGN_RIGHT ws cs
      from rfl]
    rw [align_shape_right, List.append_assoc, List.foldl_append,
      List.foldl_append]
    obtain ⟨k, hk⟩ : ∃ k, w - c.length = k + 1 := ⟨w - c.length - 1, by omega⟩
    rw [hk, fold_spaces_flush]
    rw [fold_content c.data _ hgood]
    simp only [List.nil_append]
    rw [fold_blocks_right ws cs c.data (flushTok q acc) tab fl
      (by simpa using hlen) (pair_tail cs c ws w hpair)
      (fun x hx => hcells x (by simp [hx]))
      (fun x hx => hws x (by simp [hx]))]
    rw [flushTok_data c (flushTok q acc) hcd]
    cases cs with
    | nil =>
      by_cases he : ([] : List String).length = ws.length
      · rw [if_pos he, if_pos rfl,
          if_pos (show ([c] : List String).length = (w :: ws).length from by
            simp only [List.length_cons, List.length_nil] at he ⊢
            omega),
          if_neg (show ¬ ([c] : List String) = [] from by simp)]
        rw [show (([c] : List String).getLastD "") = c from rfl,
          show ([c] : List String).dropLast = [] from rfl]
        simp
      · rw [if_neg he,
          if_neg (show ¬ ([c] : List String).length = (w :: ws).length from by
            intro hc
            apply he
            simp only [List.length_cons, List.length_nil] at hc ⊢
            omega)]
        simp
    | cons y l =>
      have hglast : ((c :: y :: l).getLastD "") = ((y :: l).getLastD "") := by
        rw [List.getLastD_cons, List.getLastD_cons, List.getLastD_cons]
      have hdrop : (c :: y :: l).dropLast = c :: (y :: l).dropLast := rfl
      by_cases he : (y :: l).length = ws.length
      · rw [if_pos he,
          if_neg (show ¬ (y :: l : List String) = [] from by simp),
          if_pos (show (c :: y :: l).length = (w :: ws).length from by
            simp only [List.length_cons, List.length_nil] at he ⊢
            omega),
          if_neg (show ¬ (c :: y :: l : List String) = [] from by simp)]
        rw [hglast, hdrop]
        simp [List.append_assoc]
      · rw [if_neg he,
          if_neg (show ¬ (c :: y :: l).length = (w :: ws).length from by
            intro hc
            apply he
            simp only [List.length_cons, List.length_nil] at hc ⊢
            omega)]
        simp [List.append_assoc]

-- ---------------------------------------------------------------------
-- Processing a whole rendered line pushes exactly its row
-- ---------------------------------------------------------------------

theorem getLastD_irrel (a : String) (l : List String) (x y : String) :
    ((a :: l).getLastD x) = ((a :: l).getLastD y) := by
  rw [List.getLastD_cons, List.getLastD_cons]

theorem getLastD_mem : ∀ (l : List String), l ≠ [] → l.getLastD "" ∈ l
  | [], h => absurd rfl h
  | [x], _ => by
    rw [List.getLastD_cons, List.getLastD_nil]
    exact List.mem_singleton_self x
  | x :: y :: l, _ => by
    rw [List.getLastD_cons]
    rw [getLastD_irrel y l x ""]
    exact List.mem_cons_of_mem x (getLastD_mem (y :: l) (by simp))

theorem dropLast_append_getLastD : ∀ (l : List String), l ≠ [] →
    l.dropLast ++ [l.getLastD ""] = l
  | [], h => absurd rfl h
  | [x], _ => rfl
  | x :: y :: l, _ => by
    have h := dropLast_append_getLastD (y :: l) (by simp)
    rw [show (x :: y :: l).dropLast = x :: (y :: l).dropLast from rfl]
    rw [show ((x :: y :: l).getLastD "") = ((y :: l).getLastD "") from by
      rw [List.getLastD_cons]
      exact getLastD_irrel y l x ""]
    rw [List.cons_append, h]

theorem fold_nl_push (q : List Char) (acc : List String)
    (tab : List (List String)) (fl : Bool) (h : flushTok q acc ≠ []) :
    List.foldl (pstep ' ' false) ⟨q, acc, tab, fl⟩ ['\n'] =
      ⟨[], [], tab ++ [flushTok q acc], fl⟩ := by
  simp only [List.foldl_cons, List.foldl_nil]
  rw [pstep_nl]
  rw [if_neg h]

theorem fold_line (m : String) (ws : List Nat) (row : List String)
    (tab : List (List String)) (fl : Bool)
    (hrow : row ≠ [])
    (hlen : row.length ≤ ws.length)
    (hpair : ∀ i, i < row.length → (row.getD i "").length + 1 ≤ ws.getD i 0)
    (hcells : ∀ c ∈ row, goodCell c)
    (hws : ∀ w ∈ ws, 1 ≤ w) :
    List.foldl (pstep ' ' false) ⟨[], [], tab, fl⟩
      (blocksOf m ws row ++ ['\n']) = ⟨[], [], tab ++ [row], fl⟩ := by
  rw [List.foldl_append]
  by_cases hm : m = ALIGN_RIGHT
  · subst hm
    rw [fold_blocks_right ws row [] [] tab fl hlen hpair hcells hws]
    by_cases he : row.length = ws.length
    · rw [if_pos he, if_neg hrow]
      rw [flushTok_nil, List.nil_append]
      have hmem : row.getLastD "" ∈ row := getLastD_mem row hrow
      have hgl : (row.getLastD "").data ≠ [] :=
        sdata_ne_nil _ ((hcells _ hmem).1)
      rw [fold_nl_push _ _ tab fl (by
        rw [flushTok_data _ _ hgl]
        simp)]
      rw [flushTok_data _ _ hgl]
      rw [dropLast_append_getLastD row hrow]
    · rw [if_neg he]
      rw [flushTok_nil, List.nil_append]
      rw [fold_nl_push _ _ tab fl (by
        rw [flushTok_nil]
        exact hrow)]
      rw [flushTok_nil]
  · rw [fold_blocks_notRight ws row [] tab fl m hm hlen hpair hcells]
    rw [List.nil_append]
    rw [fold_nl_push _ _ tab fl (by
      rw [flushTok_nil]
      exact hrow)]
    rw [flushTok_nil]

theorem fold_body (cfg : Config) (ws : List Nat) :
    ∀ (rows : List (List String)) (first : Bool) (tab : List (List String))
      (fl : Bool),
      (∀ r ∈ rows, r ≠ []) →
      (∀ r ∈ rows, r.length ≤ ws.length) →
      (∀ r ∈ rows, ∀ i, i < r.length → (r.getD i "").length + 1 ≤ ws.getD i 0) →
      (∀ r ∈ rows, ∀ c ∈ r, goodCell c) →
      (∀ w ∈ ws, 1 ≤ w) →
      List.foldl (pstep ' ' false) ⟨[], [], tab, fl⟩
        (bodyChars cfg ws first rows) = ⟨[], [], tab ++ rows, fl⟩
  | [], _, tab, fl, _, _, _, _, _ => by simp [bodyChars]
  | r :: rs, first, tab, fl, h1, h2, h3, h4, hws => by
    rw [show bodyChars cfg ws first (r :: rs) =
      blocksOf (alignFor first cfg) ws r ++ '\n' :: bodyChars cfg ws false rs
      from rfl]
    rw [List.append_cons]
    rw [List.foldl_append]
    rw [fold_line (alignFor first cfg) ws r tab fl (h1 r (by simp))
      (h2 r (by simp)) (h3 r (by simp)) (h4 r (by simp)) hws]
    rw [fold_body cfg ws rs false (tab ++ [r]) fl
      (fun x hx => h1 x (by simp [hx])) (fun x hx => h2 x (by simp [hx]))
      (fun x hx => h3 x (by simp [hx])) (fun x hx => h4 x (by simp [hx])) hws]
    simp

-- ---------------------------------------------------------------------
-- Stripping styling from a borderless unstyled render
-- ---------------------------------------------------------------------

theorem isSgr_empty : isSgr "" = false := by decide

theorem isSgr_DEFAULT : isSgr DEFAULT = true := by decide

theorem isSgr_nl : isSgr "\n" = false := by decide

theorem align_data_chars (c : String) (w : Nat) (m : String) :
    ∀ ch ∈ (align_text c w m).2.data, ch = ' ' ∨ ch ∈ c.data := by
  intro ch hch
  by_cases h1 : m = ALIGN_RIGHT
  · rw [h1, align_shape_right] at hch
    rcases List.mem_append.mp hch with h | h
    · exact Or.inl (List.eq_of_mem_replicate h)
    · exact Or.inr h
  · by_cases h2 : m = ALIGN_CENTER
    · rw [h2, align_shape_center] at hch
      rcases List.mem_append.mp hch with h | h
      · rcases List.mem_append.mp h with h' | h'
        · exact Or.inl (List.eq_of_mem_replicate h')
        · exact Or.inr h'
      · exact Or.inl (List.eq_of_mem_replicate h)
    · rw [align_shape_other c w m h1 h2] at hch
      rcases List.mem_append.mp hch with h | h
      · exact Or.inr h
      · exact Or.inl (List.eq_of_mem_replicate h)

theorem isSgr_align (c : String) (w : Nat) (m : String)
    (h : ∀ ch ∈ c.data, ¬ (ch = '\x1b')) :
    isSgr (align_text c w m).2 = false := by
  unfold isSgr
  apply decide_eq_false
  intro hh
  have hmem : '\x1b' ∈ (align_text c w m).2.data := by
    cases hd : (align_text c w m).2.data with
    | nil =>
      rw [hd] at hh
      simp at hh
    | cons x xs =>
      rw [hd] at hh
      simp at hh
      simp [hh]
  rcases align_data_chars c w m '\x1b' hmem with h' | h'
  · exact absurd h' (by decide)
  · exact h '\x1b' h' rfl

theorem stripStyle_append (a b : List String) :
    stripStyle (a ++ b) = stripStyle a ++ stripStyle b := by
  simp [stripStyle, List.filter_append]

theorem chunkChars_append (a b : List String) :
    chunkChars (a ++ b) = chunkChars a ++ chunkChars b := by
  simp [chunkChars]

theorem strip_cell (first : Bool) (cfg : Config) (c : String) (w : Nat)
    (hb : cfg.use_border = false) (htc : cfg.table_color = "")
    (h3 : cfg.header_text_style = "") (h4 : cfg.header_bg_color = "")
    (h5 : cfg.header_text_color = "") (h6 : cfg.body_text_style = "")
    (h7 : cfg.body_bg_color = "") (h8 : cfg.body_text_color = "")
    (hesc : ∀ ch ∈ c.data, ¬ (ch = '\x1b')) :
    chunkChars (stripStyle (cellChunks first cfg c w)) =
      (align_text c w (alignFor first cfg)).2.data := by
  unfold cellChunks
  rw [setw_align, h3, h4, h5, h6, h7, h8, hb, htc]
  rw [show ("" : String) ++ "" ++ "" = "" from rfl]
  rw [ite_self, ite_self]
  rw [if_neg (show ¬ (false = true) from by simp)]
  have ha := isSgr_align c w (alignFor first cfg) hesc
  simp [stripStyle, chunkChars, List.filter, isSgr_empty, isSgr_DEFAULT, ha]

theorem strip_rowCells (first : Bool) (cfg : Config)
    (hb : cfg.use_border = false) (htc : cfg.table_color = "")
    (h3 : cfg.header_text_style = "") (h4 : cfg.header_bg_color = "")
    (h5 : cfg.header_text_color = "") (h6 : cfg.body_text_style = "")
    (h7 : cfg.body_bg_color = "") (h8 : cfg.body_text_color = "") :
    ∀ (ws : List Nat) (row : List String),
      (∀ c ∈ row, ∀ ch ∈ c.data, ¬ (ch = '\x1b')) →
      chunkChars (stripStyle (rowCells first cfg ws row)) =
        blocksOf (alignFor first cfg) ws row
  | [], row, _ => by cases row <;> rfl
  | w :: ws, [], h => by
    rw [show rowCells first cfg (w :: ws) [] =
      cellChunks first cfg "" w ++ rowCells first cfg ws [] from rfl]
    rw [stripStyle_append, chunkChars_append]
    rw [strip_cell first cfg "" w hb htc h3 h4 h5 h6 h7 h8
      (by intro ch hch; simp at hch)]
    rw [strip_rowCells first cfg hb htc h3 h4 h5 h6 h7 h8 ws [] h]
    rw [align_empty_data]
    rfl
  | w :: ws, c :: cs, h => by
    rw [show rowCells first cfg (w :: ws) (c :: cs) =
      cellChunks first cfg c w ++ rowCells first cfg ws cs from rfl]
    rw [stripStyle_append, chunkChars_append]
    rw [strip_cell first cfg c w hb htc h3 h4 h5 h6 h7 h8 (h c (by simp))]
    rw [strip_rowCells first cfg hb htc h3 h4 h5 h6 h7 h8 ws cs
      (fun x hx => h x (by simp [hx]))]
    rfl

theorem strip_row (first : Bool) (cfg : Config)
    (hb : cfg.use_border = false) (htc : cfg.table_color = "")
    (h3 : cfg.header_text_style = "") (h4 : cfg.header_bg_color = "")
    (h5 : cfg.header_text_color = "") (h6 : cfg.body_text_style = "")
    (h7 : cfg.body_bg_color = "") (h8 : cfg.body_text_color = "")
    (ws : List Nat) (row : List String)
    (hesc : ∀ c ∈ row, ∀ ch ∈ c.data, ¬ (ch = '\x1b')) :
    chunkChars (stripStyle (rowChunks first cfg ws row)) =
      blocksOf (alignFor first cfg) ws row ++ ['\n'] := by
  unfold rowChunks
  rw [hb]
  rw [if_neg (show ¬ (false = true) from by simp)]
  rw [List.nil_append]
  rw [stripStyle_append, chunkChars_append]
  rw [strip_rowCells first cfg hb htc h3 h4 h5 h6 h7 h8 ws row hesc]
  rw [show chunkChars (stripStyle ["\n"]) = ['\n'] from rfl]

theorem strip_renderRows (cfg : Config)
    (hb : cfg.use_border = false) (htc : cfg.table_color = "")
    (h3 : cfg.header_text_style = "") (h4 : cfg.header_bg_color = "")
    (h5 : cfg.header_text_color = "") (h6 : cfg.body_text_style = "")
    (h7 : cfg.body_bg_color = "") (h8 : cfg.body_text_color = "")
    (ws : List Nat) :
    ∀ (rows : List (List String)) (first : Bool),
      (∀ r ∈ rows, ∀ c ∈ r, ∀ ch ∈ c.data, ¬ (ch = '\x1b')) →
      chunkChars (stripStyle (renderRows cfg ws first rows)) =
        bodyChars cfg ws first rows
  | [], _, _ => rfl
  | r :: rs, first, h => by
    rw [show renderRows cfg ws first (r :: rs) =
      (if first = true ∧ cfg.use_border = true
       then get_tab_border ws cfg.border.top cfg.table_color else [])
      ++ rowChunks first cfg ws r
      ++ (if first = true ∧ cfg.headerless = false ∧ cfg.use_border = true ∧
            cfg.use_separator = true
          then get_tab_border ws cfg.border.separator cfg.table_color else [])
      ++ renderRows cfg ws false rs from rfl]
    rw [hb]
    rw [if_neg (show ¬ (first = true ∧ false = true) from by simp)]
    rw [if_neg (show ¬ (first = true ∧ cfg.headerless = false ∧ false = true ∧
      cfg.use_separator = true) from by simp)]
    rw [List.nil_append, List.append_nil]
    rw [stripStyle_append, chunkChars_append]
    rw [strip_row first cfg hb htc h3 h4 h5 h6 h7 h8 ws r (h r (by simp))]
    rw [strip_renderRows cfg hb htc h3 h4 h5 h6 h7 h8 ws rs false
      (fun x hx => h x (by simp [hx]))]
    rw [show bodyChars cfg ws first (r :: rs) =
      blocksOf (alignFor first cfg) ws r ++ '\n' :: bodyChars cfg ws false rs
      from rfl]
    rw [← List.append_cons]

theorem strip_renderTable (cfg : Config)
    (hb : cfg.use_border = false) (htc : cfg.table_color = "")
    (h3 : cfg.header_text_style = "") (h4 : cfg.header_bg_color = "")
    (h5 : cfg.header_text_color = "") (h6 : cfg.body_text_style = "")
    (h7 : cfg.body_bg_color = "") (h8 : cfg.body_text_color = "")
    (table : List (List String))
    (hesc : ∀ r ∈ table, ∀ c ∈ r, ∀ ch ∈ c.data, ¬ (ch = '\x1b')) :
    chunkChars (stripStyle (renderTable cfg table)) =
      bodyChars cfg (tab_col_width table cfg.col_padding) true table := by
  unfold renderTable
  rw [hb]
  rw [if_neg (show ¬ (false = true) from by simp)]
  rw [List.append_nil]
  exact strip_renderRows cfg hb htc h3 h4 h5 h6 h7 h8 _ table true hesc

-- ---------------------------------------------------------------------
-- Width facts feeding the retokenization proof
-- ---------------------------------------------------------------------

theorem mem_tab_col_width (table : List (List String)) (p : Nat) (w : Nat)
    (h : w ∈ tab_col_width table p) : p ≤ w := by
  unfold tab_col_width at h
  rcases List.mem_map.mp h with ⟨x, _, rfl⟩
  omega

theorem foldl_max2_ge_init (i : Nat) : ∀ (t : List (List String)) (a : Nat),
    a ≤ t.foldl (fun m r => max m (cellIf r i)) a
  | [], a => le_refl a
  | r :: t, a => by
    simp only [List.foldl_cons]
    exact le_trans (Nat.le_max_left a (cellIf r i)) (foldl_max2_ge_init i t _)

theorem cellIf_le_foldl (i : Nat) : ∀ (t : List (List String)) (a : Nat)
    (r : List String), r ∈ t →
    cellIf r i ≤ t.foldl (fun m r => max m (cellIf r i)) a
  | [], _, r, h => absurd h (List.not_mem_nil r)
  | r' :: t, a, r, h => by
    simp only [List.foldl_cons]
    rcases List.mem_cons.mp h with h | h
    · subst h
      exact le_trans (Nat.le_max_right a (cellIf r i)) (foldl_max2_ge_init i t _)
    · exact cellIf_le_foldl i t _ r h

theorem cellIf_le_colMax (table : List (List String)) (r : List String)
    (i : Nat) (h : r ∈ table) : cellIf r i ≤ colMax_spec table i :=
  cellIf_le_foldl i table 0 r h

theorem width_pair (table : List (List String)) (p : Nat) (r : List String)
    (hr : r ∈ table) (hp : 1 ≤ p) :
    ∀ i, i < r.length →
      (r.getD i "").length + 1 ≤ (tab_col_width table p).getD i 0 := by
  intro i hi
  have hmax : i < max_col_count table :=
    lt_of_lt_of_le hi (length_le_max_col table r hr)
  rw [tab_col_width_getD table p i hmax]
  have hle : cellIf r i ≤ colMax_spec table i := cellIf_le_colMax table r i hr
  have hc : cellIf r i = (r.getD i "").length := by simp [cellIf, hi]
  omega

-- ---------------------------------------------------------------------
-- C8: re-tokenizing the rendered body
-- ---------------------------------------------------------------------

/-- C8 (amended): for every table of non-empty rows of non-empty cells
containing no space, newline or escape character (exactly what space
tokenization produces), rendered borderless and style-free with padding
at least 1, re-tokenizing the style-stripped rendered text with the
space separator yields exactly the original table — for every
header/body alignment setting. (For the tab and newline separators,
or padding 0, the cells are not recoverable; see the counterexample.) -/
theorem C8_retok (cfg : Config) (table : List (List String))
    (hb : cfg.use_border = false) (htc : cfg.table_color = "")
    (h3 : cfg.header_text_style = "") (h4 : cfg.header_bg_color = "")
    (h5 : cfg.header_text_color = "") (h6 : cfg.body_text_style = "")
    (h7 : cfg.body_bg_color = "") (h8 : cfg.body_text_color = "")
    (hp : 1 ≤ cfg.col_padding) (hg : goodTable table) :
    collect (chunkChars (stripStyle (renderTable cfg table))) ' ' false =
      table := by
  rw [strip_renderTable cfg hb htc h3 h4 h5 h6 h7 h8 table
    (fun r hr c hc ch hch => (((hg r hr).2 c hc).2 ch hch).2.2)]
  unfold collect
  rw [fold_body cfg (tab_col_width table cfg.col_padding) table true [] true
    (fun r hr => (hg r hr).1)
    (fun r hr => by
      rw [tab_col_width_length]
      exact length_le_max_col table r hr)
    (fun r hr => width_pair table cfg.col_padding r hr hp)
    (fun r hr => (hg r hr).2)
    (fun w hw => le_trans hp (mem_tab_col_width table cfg.col_padding w hw))]
  simp [pfinish]

/-- Witness for C8 at `--borderless` defaults (padding 2, space
separator, no styling) and a ragged two-row table. -/
theorem C8_retok_w :
    collect (chunkChars (stripStyle (renderTable cfgPlain
      [["ab", "c"], ["d"]]))) ' ' false = [["ab", "c"], ["d"]] :=
  C8_retok cfgPlain [["ab", "c"], ["d"]] rfl rfl rfl rfl rfl rfl rfl rfl
    (by decide) (by unfold goodTable goodCell; decide)

/-- C8 counterexample: with the tab separator (`--separator=tab
--borderless`, no styling) the table `[["a","b"]]` — produced by the
input `"a\tb\n"` — renders as `"a  b  \n"`, whose re-tokenization with
the same separator is the single-cell table `[["a  b  "]]`: the
original cells are not recovered, not even ignoring padding spaces
(one cell instead of two). -/
theorem C8_cex :
    collect (chunkChars (stripStyle (renderTable cfgTab [["a", "b"]])))
      '\t' false = [["a  b  "]] ∧
    ¬ (collect (chunkChars (stripStyle (renderTable cfgTab [["a", "b"]])))
      '\t' false = [["a", "b"]]) := by
  constructor
  · decide
  · decide

-- ---------------------------------------------------------------------
-- ANSI activity bookkeeping
-- ---------------------------------------------------------------------

theorem actAfter_append (xs ys : List String) (act : Bool) :
    actAfter act (xs ++ ys) = actAfter (actAfter act xs) ys := by
  simp [actAfter, List.foldl_append]

theorem linesOk_append : ∀ (xs ys : List String) (act : Bool),
    linesOk act (xs ++ ys) = (linesOk act xs && linesOk (actAfter act xs) ys)
  | [], ys, act => by simp [linesOk, actAfter]
  | x :: xs, ys, act => by
    rw [List.cons_append]
    rw [show linesOk act (x :: (xs ++ ys)) =
      ((if x = "\n" then !act else true) && linesOk (sgrStep act x) (xs ++ ys))
      from rfl]
    rw [linesOk_append xs ys (sgrStep act x)]
    rw [show linesOk act (x :: xs) =
      ((if x = "\n" then !act else true) && linesOk (sgrStep act x) xs)
      from rfl]
    rw [show actAfter act (x :: xs) = actAfter (sgrStep act x) xs from rfl]
    rw [Bool.and_assoc]

theorem linesOk_no_nl : ∀ (l : List String) (act : Bool),
    (∀ g ∈ l, ¬ (g = "\n")) → linesOk act l = true
  | [], _, _ => rfl
  | g :: l, act, h => by
    rw [show linesOk act (g :: l) =
      ((if g = "\n" then !act else true) && linesOk (sgrStep act g) l)
      from rfl]
    rw [if_neg (h g (by simp))]
    simp [linesOk_no_nl l (sgrStep act g) (fun x hx => h x (by simp [hx]))]

theorem neutral_chunks : ∀ (l : List String) (act : Bool),
    (∀ g ∈ l, ¬ (g = "\n") ∧ isSgr g = false) →
    linesOk act l = true ∧ actAfter act l = act
  | [], act, _ => ⟨rfl, rfl⟩
  | g :: l, act, h => by
    have hg := h g (by simp)
    have hgd : ¬ (g = DEFAULT) := by
      intro he
      rw [he] at hg
      rw [isSgr_DEFAULT] at hg
      exact absurd hg.2 (by simp)
    have hstep : sgrStep act g = act := by
      unfold sgrStep
      rw [if_neg hgd, if_neg (by simp [hg.2])]
    have ih := neutral_chunks l act (fun x hx => h x (by simp [hx]))
    constructor
    · rw [show linesOk act (g :: l) =
        ((if g = "\n" then !act else true) && linesOk (sgrStep act g) l)
        from rfl]
      rw [if_neg hg.1, hstep]
      simp [ih.1]
    · rw [show actAfter act (g :: l) = actAfter (sgrStep act g) l from rfl]
      rw [hstep]
      exact ih.2

theorem actAfter_ends_DEFAULT (l : List String) (act : Bool) :
    actAfter act (l ++ [DEFAULT]) = false := by
  rw [actAfter_append]
  simp [actAfter, sgrStep]

theorem plainGlyph_props (g : String) (h : plainGlyph g) :
    ¬ (g = "\n") ∧ isSgr g = false :=
  ⟨h.1, by
    unfold isSgr
    exact decide_eq_false h.2⟩

theorem fillCols_mem (b : BLine) : ∀ (ws : List Nat) (m temp : Int)
    (g : String), g ∈ fillCols b m temp ws →
    g = b.fill_char_unicode ∨ g = b.mid_char_unicode
  | [], _, _, g, h => absurd h (List.not_mem_nil g)
  | w :: ws, m, temp, g, h => by
    rw [show fillCols b m temp (w :: ws) =
      (List.replicate w b.fill_char_unicode ++
        (if 0 < w ∧ temp + (w : Int) - 1 < m - 1 then [b.mid_char_unicode]
         else [])) ++ fillCols b m (temp + (w : Int) - 1) ws from rfl] at h
    rcases List.mem_append.mp h with h | h
    · rcases List.mem_append.mp h with h' | h'
      · exact Or.inl (List.eq_of_mem_replicate h')
      · split at h'
        · simp at h'
          exact Or.inr h'
        · exact absurd h' (List.not_mem_nil g)
    · exact fillCols_mem b ws m _ g h

theorem borderGlyphs_plain (ws : List Nat) (b : BLine) (hp : plainBLine b) :
    ∀ g ∈ borderGlyphs ws b, ¬ (g = "\n") ∧ isSgr g = false := by
  intro g hg
  unfold borderGlyphs at hg
  rcases List.mem_cons.mp hg with h | h
  · subst h
    exact plainGlyph_props _ hp.1
  · rcases List.mem_append.mp h with h | h
    · rcases fillCols_mem b ws _ _ g h with h' | h'
      · subst h'
        exact plainGlyph_props _ hp.2.2.2
      · subst h'
        exact plainGlyph_props _ hp.2.1
    · simp at h
      subst h
      exact plainGlyph_props _ hp.2.2.1

theorem border_seg (ws : List Nat) (b : BLine) (hp : plainBLine b) :
    linesOk false (get_tab_border ws b "") = true ∧
    actAfter false (get_tab_border ws b "") = false := by
  rw [show get_tab_border ws b "" =
    ("" :: borderGlyphs ws b) ++ [DEFAULT, "\n"] from rfl]
  have hneutral : ∀ g ∈ ("" :: borderGlyphs ws b),
      ¬ (g = "\n") ∧ isSgr g = false := by
    intro g hg
    rcases List.mem_cons.mp hg with h | h
    · subst h
      exact ⟨by decide, isSgr_empty⟩
    · exact borderGlyphs_plain ws b hp g h
  have hn := neutral_chunks ("" :: borderGlyphs ws b) false hneutral
  constructor
  · rw [linesOk_append, hn.1, hn.2]
    decide
  · rw [actAfter_append, hn.2]
    decide

theorem styleLike_append (a b : String) (ha : styleLike a)
    (hb : styleLike b) : styleLike (a ++ b) := by
  rcases ha with ha | ha
  · rw [ha, empty_append_str]
    exact hb
  · right
    cases had : a.data with
    | nil =>
      rw [had] at ha
      simp at ha
    | cons x xs =>
      rw [had] at ha
      simp at ha
      rw [sdata_append, had]
      simpa using ha

theorem styleLike_ne_nl (s : String) (h : styleLike s) : ¬ (s = "\n") := by
  intro he
  rcases h with h | h
  · rw [he] at h
    exact absurd h (by decide)
  · rw [he] at h
    exact absurd h (by decide)

theorem align_ne_nl (c : String) (w : Nat) (m : String)
    (h : ∀ ch ∈ c.data, ¬ (ch = '\n')) : ¬ ((align_text c w m).2 = "\n") := by
  intro he
  have hmem : '\n' ∈ (align_text c w m).2.data := by
    rw [he]
    simp [show ("\n" : String).data = ['\n'] from rfl]
  rcases align_data_chars c w m '\n' hmem with h' | h'
  · exact absurd h' (by decide)
  · exact h '\n' h' rfl

theorem cell_seg (first : Bool) (cfg : Config) (c : String) (w : Nat)
    (htc : cfg.table_color = "") (hsl : styleLikeCfg cfg)
    (hvert : plainGlyph cfg.border.vertical_line)
    (hnl : ∀ ch ∈ c.data, ¬ (ch = '\n')) (act : Bool) :
    linesOk act (cellChunks first cfg c w) = true ∧
    actAfter act (cellChunks first cfg c w) = false := by
  unfold cellChunks
  rw [setw_align, htc]
  have hs1 : styleLike (if first = true ∧ cfg.headerless = false
      then cfg.header_text_style ++ cfg.header_bg_color ++ cfg.header_text_color
      else "") := by
    split
    · exact styleLike_append _ _
        (styleLike_append _ _ hsl.1 hsl.2.1) hsl.2.2.1
    · exact Or.inl rfl
  have hs2 : styleLike (if first = false ∨ cfg.headerless = true
      then cfg.body_text_style ++ cfg.body_bg_color ++ cfg.body_text_color
      else "") := by
    split
    · exact styleLike_append _ _
        (styleLike_append _ _ hsl.2.2.2.1 hsl.2.2.2.2.1) hsl.2.2.2.2.2
    · exact Or.inl rfl
  have hvc : ¬ ((if cfg.use_border = true then cfg.border.vertical_line
      else "") = "\n") ∧ isSgr (if cfg.use_border = true
      then cfg.border.vertical_line else "") = false := by
    split
    · exact plainGlyph_props _ hvert
    · exact ⟨by decide, isSgr_empty⟩
  rw [show ([(if first = true ∧ cfg.headerless = false
      then cfg.header_text_style ++ cfg.header_bg_color ++ cfg.header_text_color
      else ""),
      (if first = false ∨ cfg.headerless = true
      then cfg.body_text_style ++ cfg.body_bg_color ++ cfg.body_text_color
      else ""),
      (align_text c w (alignFor first cfg)).2, DEFAULT, "",
      (if cfg.use_border = true then cfg.border.vertical_line else "")] :
      List String) =
    [(if first = true ∧ cfg.headerless = false
      then cfg.header_text_style ++ cfg.header_bg_color ++ cfg.header_text_color
      else ""),
      (if first = false ∨ cfg.headerless = true
      then cfg.body_text_style ++ cfg.body_bg_color ++ cfg.body_text_color
      else ""),
      (align_text c w (alignFor first cfg)).2] ++ [DEFAULT] ++
      ["", (if cfg.use_border = true then cfg.border.vertical_line else "")]
    from rfl]
  have hA : ∀ g ∈ [(if first = true ∧ cfg.headerless = false
      then cfg.header_text_style ++ cfg.header_bg_color ++ cfg.header_text_color
      else ""),
      (if first = false ∨ cfg.headerless = true
      then cfg.body_text_style ++ cfg.body_bg_color ++ cfg.body_text_color
      else ""),
      (align_text c w (alignFor first cfg)).2], ¬ (g = "\n") := by
    intro g hg
    simp only [List.mem_cons, List.not_mem_nil, or_false] at hg
    rcases hg with hg | hg | hg
    · subst hg
      exact styleLike_ne_nl _ hs1
    · subst hg
      exact styleLike_ne_nl _ hs2
    · subst hg
      exact align_ne_nl c w _ hnl
  have hB : ∀ g ∈ (["", (if cfg.use_border = true
      then cfg.border.vertical_line else "")] : List String),
      ¬ (g = "\n") ∧ isSgr g = false := by
    intro g hg
    simp only [List.mem_cons, List.not_mem_nil, or_false] at hg
    rcases hg with hg | hg
    · subst hg
      exact ⟨by decide, isSgr_empty⟩
    · subst hg
      exact hvc
  have hnB := neutral_chunks _ false hB
  constructor
  · rw [linesOk_append, linesOk_append]
    rw [linesOk_no_nl _ act hA]
    rw [show ∀ x, linesOk x [DEFAULT] = true from fun x => by
      cases x <;> decide]
    rw [actAfter_append]
    rw [show ∀ x, actAfter x [DEFAULT] = false from fun x => by
      cases x <;> decide]
    rw [hnB.1]
    rfl
  · rw [actAfter_append, actAfter_append]
    rw [show ∀ x, actAfter x [DEFAULT] = false from fun x => by
      cases x <;> decide]
    exact hnB.2

theorem cells_seg (first : Bool) (cfg : Config)
    (htc : cfg.table_color = "") (hsl : styleLikeCfg cfg)
    (hvert : plainGlyph cfg.border.vertical_line) :
    ∀ (ws : List Nat) (row : List String) (act : Bool),
      (∀ c ∈ row, ∀ ch ∈ c.data, ¬ (ch = '\n')) →
      linesOk act (rowCells first cfg ws row) = true ∧
      actAfter act (rowCells first cfg ws row) =
        (if ws = [] then act else false)
  | [], row, act, _ => by
    cases row <;> exact ⟨rfl, by rw [if_pos rfl]; rfl⟩
  | w :: ws, [], act, h => by
    rw [show rowCells first cfg (w :: ws) [] =
      cellChunks first cfg "" w ++ rowCells first cfg ws [] from rfl]
    have hc := cell_seg first cfg "" w htc hsl hvert
      (by intro ch hch; simp at hch) act
    have ih := cells_seg first cfg htc hsl hvert ws [] false h
    constructor
    · rw [linesOk_append, hc.1, hc.2, ih.1]
      rfl
    · rw [actAfter_append, hc.2, ih.2]
      rw [if_neg (by simp : ¬ ((w :: ws : List Nat) = []))]
      split <;> rfl
  | w :: ws, c :: cs, act, h => by
    rw [show rowCells first cfg (w :: ws) (c :: cs) =
      cellChunks first cfg c w ++ rowCells first cfg ws cs from rfl]
    have hc := cell_seg first cfg c w htc hsl hvert (h c (by simp)) act
    have ih := cells_seg first cfg htc hsl hvert ws cs false
      (fun x hx => h x (by simp [hx]))
    constructor
    · rw [linesOk_append, hc.1, hc.2, ih.1]
      rfl
    · rw [actAfter_append, hc.2, ih.2]
      rw [if_neg (by simp : ¬ ((w :: ws : List Nat) = []))]
      split <;> rfl

theorem row_seg (first : Bool) (cfg : Config) (ws : List Nat)
    (row : List String)
    (htc : cfg.table_color = "") (hsl : styleLikeCfg cfg)
    (hvert : plainGlyph cfg.border.vertical_line)
    (hnl : ∀ c ∈ row, ∀ ch ∈ c.data, ¬ (ch = '\n')) :
    linesOk false (rowChunks first cfg ws row) = true ∧
    actAfter false (rowChunks first cfg ws row) = false := by
  unfold rowChunks
  rw [htc]
  have hpre : linesOk false (if cfg.use_border = true
      then (["", cfg.border.vertical_line, DEFAULT] : List String)
      else []) = true ∧
      actAfter false (if cfg.use_border = true
      then (["", cfg.border.vertical_line, DEFAULT] : List String)
      else []) = false := by
    split
    · constructor
      · apply linesOk_no_nl
        intro g hg
        simp only [List.mem_cons, List.not_mem_nil, or_false] at hg
        rcases hg with hg | hg | hg
        · subst hg
          decide
        · subst hg
          exact hvert.1
        · subst hg
          decide
      · rw [show (["", cfg.border.vertical_line, DEFAULT] : List String) =
          ["", cfg.border.vertical_line] ++ [DEFAULT] from rfl]
        exact actAfter_ends_DEFAULT _ false
    · exact ⟨rfl, rfl⟩
  have hcells := cells_seg first cfg htc hsl hvert ws row false hnl
  have hln : linesOk (if ws = [] then false else false) ["\n"] = true := by
    split <;> rfl
  constructor
  · rw [linesOk_append, linesOk_append, actAfter_append, hpre.1, hpre.2,
      hcells.1, hcells.2, hln]
    rfl
  · rw [actAfter_append, actAfter_append, hpre.2, hcells.2]
    split <;> rfl

theorem seg_append (xs ys : List String)
    (hx : linesOk false xs = true ∧ actAfter false xs = false)
    (hy : linesOk false ys = true ∧ actAfter false ys = false) :
    linesOk false (xs ++ ys) = true ∧
    actAfter false (xs ++ ys) = false := by
  constructor
  · rw [linesOk_append, hx.1, hx.2, hy.1]
    rfl
  · rw [actAfter_append, hx.2, hy.2]

theorem border_ite_seg (cond : Prop) [Decidable cond] (ws : List Nat)
    (b : BLine) (hp : plainBLine b) :
    linesOk false (if cond then get_tab_border ws b "" else []) = true ∧
    actAfter false (if cond then get_tab_border ws b "" else []) = false := by
  split
  · exact border_seg ws b hp
  · exact ⟨rfl, rfl⟩

theorem renderRows_seg (cfg : Config) (ws : List Nat)
    (htc : cfg.table_color = "") (hsl : styleLikeCfg cfg)
    (hpb : plainBorder cfg.border) :
    ∀ (rows : List (List String)) (first : Bool),
      (∀ r ∈ rows, ∀ c ∈ r, ∀ ch ∈ c.data, ¬ (ch = '\n')) →
      linesOk false (renderRows cfg ws first rows) = true ∧
      actAfter false (renderRows cfg ws first rows) = false
  | [], _, _ => ⟨rfl, rfl⟩
  | r :: rs, first, h => by
    rw [show renderRows cfg ws first (r :: rs) =
      (if first = true ∧ cfg.use_border = true
       then get_tab_border ws cfg.border.top cfg.table_color else [])
      ++ rowChunks first cfg ws r
      ++ (if first = true ∧ cfg.headerless = false ∧ cfg.use_border = true ∧
            cfg.use_separator = true
          then get_tab_border ws cfg.border.separator cfg.table_color else [])
      ++ renderRows cfg ws false rs from rfl]
    rw [htc]
    exact seg_append _ _
      (seg_append _ _
        (seg_append _ _ (border_ite_seg _ ws cfg.border.top hpb.1)
          (row_seg first cfg ws r htc hsl hpb.2.2.2 (h r (by simp))))
        (border_ite_seg _ ws cfg.border.separator hpb.2.1))
      (renderRows_seg cfg ws htc hsl hpb rs false
        (fun x hx => h x (by simp [hx])))

theorem renderTable_seg (cfg : Config) (table : List (List String))
    (htc : cfg.table_color = "") (hsl : styleLikeCfg cfg)
    (hpb : plainBorder cfg.border)
    (hnl : ∀ r ∈ table, ∀ c ∈ r, ∀ ch ∈ c.data, ¬ (ch = '\n')) :
    linesOk false (renderTable cfg table) = true ∧
    actAfter false (renderTable cfg table) = false := by
  unfold renderTable
  rw [htc]
  exact seg_append _ _
    (renderRows_seg cfg _ htc hsl hpb table true hnl)
    (border_ite_seg _ _ cfg.border.bottom hpb.2.2.1)

-- ---------------------------------------------------------------------
-- C9: style runs across line terminators
-- ---------------------------------------------------------------------

/-- C9 (amended): when no table border color is configured
(`table_color` empty), every style run the renderer opens is reset
before its span closes: no ANSI code is active at any emitted line
terminator nor at the end of the output — for any border setting,
any header/body style fields (empty or ANSI escapes), any border
preset (whose glyphs are plain text), and any table whose cells
contain no newline. (With a table border color configured the color
emitted after each cell stays active across the row's line
terminator; see the counterexample.) -/
theorem C9_noleak (cfg : Config) (table : List (List String))
    (htc : cfg.table_color = "")
    (hsl : styleLikeCfg cfg)
    (hpb : plainBorder cfg.border)
    (hnl : ∀ r ∈ table, ∀ c ∈ r, ∀ ch ∈ c.data, ¬ (ch = '\n')) :
    noLeakB (renderTable cfg table) = true := by
  unfold noLeakB
  have h := renderTable_seg cfg table htc hsl hpb hnl
  rw [h.1, h.2]
  rfl

/-- Witness for C9 at the default configuration (borders on, no
colors) and the table of `"a b\n"`. -/
theorem C9_noleak_w :
    noLeakB (renderTable defaultCfg [["a", "b"]]) = true :=
  C9_noleak defaultCfg [["a", "b"]] rfl
    (by unfold styleLikeCfg styleLike; decide)
    (by unfold plainBorder plainBLine plainGlyph; decide)
    (by decide)

/-- C9 counterexample: with `--tab-color=red` (borders on, default
otherwise) and input `"a"`, the table color emitted after the cell is
still active at the row's line terminator — the emitted output violates
the no-leak property, contradicting the claim that no control code
remains active across a line terminator. -/
theorem C9_cex :
    (run_pipeline cfgRed (("a").data)).map noLeakB = some false := by
  decide
